import Mathlib

/-!
Shallow embedding of the presence-synchronization engine of the `visual`
repository (main room component in `src/unnamed/part_000`, transport layer in
`src/unnamed/part_002`), together with theorems settling the frozen claims.

Conventions of the embedding:
* TypeScript `number` is modelled as `ℚ` where the code only adds, subtracts,
  multiplies, compares and clamps, and as `ℝ` where the code calls the
  transcendental functions `Math.exp` / `Math.pow` with a fractional exponent
  (velocity smoothing, remote display smoothing).
* TypeScript optional booleans that are read through `!!`-coercion are
  modelled as `Bool` (with `undefined ↦ false`); a possibly-absent object
  read through `?.` is modelled as `Option`.
* The mutable maps `participantsRef.current`, `displayPosRef.current` are
  modelled as functions `String → Option _`; JS in-place mutation becomes
  functional update.
-/

namespace Visual

/-- Constants from the top of `src/unnamed/part_000`. -/
def TILE : ℚ := 64

def WORLD_W : ℚ := 16

def WORLD_H : ℚ := 10

def BASE_SPEED : ℚ := 180

def ACCEL : ℚ := 8

def DECEL : ℚ := 10

def SEND_RATE_MS : ℚ := 60

def VOICE_RATE_MS : ℚ := 140

def LERP_REMOTE : ℚ := 12

/-- The four cardinal facing directions of a participant (`Participant["dir"]`). -/
inductive Dir
  | up
  | down
  | left
  | right
deriving DecidableEq, Repr

/-- `clamp(v, min, max) = Math.max(min, Math.min(max, v))`. -/
def clamp (v lo hi : ℚ) : ℚ := max lo (min hi v)

/-- `lerp(a, b, t) = a + (b - a) * t` (rational version). -/
def lerp (a b t : ℚ) : ℚ := a + (b - a) * t

/-- `getDirFromVel`: quantize a velocity vector to a facing direction.
The larger-magnitude axis wins; vertical wins ties; zero velocity gives
`"down"`. -/
def getDirFromVel (vx vy : ℚ) : Dir :=
  let ax := |vx|
  let ay := |vy|
  if ax > ay then (if vx ≥ 0 then Dir.right else Dir.left)
  else if ay > 0 then (if vy ≥ 0 then Dir.down else Dir.up)
  else Dir.down

/-- The facing-direction update performed by `step` each tick:
`my.dir = getDirFromVel(velRef.current)`.  The previous direction is an
argument only to make explicit that the assignment ignores it. -/
def stepDir (_prev : Dir) (vx vy : ℚ) : Dir := getDirFromVel vx vy

/-- `AvatarProfile` from `src/unnamed` (name, color, optional accessory,
optional ephemeral bubble). -/
structure Profile where
  name : String
  color : String
  accessory : Option String
  bubble : Option String
deriving DecidableEq, Repr

/-- `Participant` from `src/unnamed/part_000`.  The optional TS fields
`micEnabled?` and `speakingLevel?` are modelled with their
`undefined ↦ false` / `undefined ↦ 0` readings, which is how every read in
the reconciliation code coerces them. -/
structure Participant where
  id : String
  profile : Profile
  x : ℚ
  y : ℚ
  dir : Dir
  camEnabled : Bool
  micEnabled : Bool
  speakingLevel : ℚ
  lastSeen : ℕ
deriving DecidableEq, Repr

/-- A `WorldObject.state` map: in the source the runtime values are the
booleans `on` (lamp) and `highlight` (board). -/
def StateMap : Type := String → Option Bool

/-- JS object spread `{ ...base, ...upd }` restricted to the state map:
keys present in `upd` overwrite, the rest come from `base`. -/
def mergeState (base upd : StateMap) : StateMap :=
  fun k => match upd k with
    | some v => some v
    | none => base k

/-- `WorldObject` from `src/unnamed/part_000`. -/
structure WorldObject where
  id : String
  kind : String
  x : ℚ
  y : ℚ
  w : ℚ
  h : ℚ
  interactive : Bool
  state : StateMap

/-- The `object` branch of `onMsg`: `objectsRef.current.find(o => o.id === id)`
followed by `obj.state = { ...obj.state, ...state }` — i.e. the first object
with a matching id has the message's partial state shallow-merged in. -/
def applyObject (objs : List WorldObject) (id : String) (st : StateMap) :
    List WorldObject :=
  match objs with
  | [] => []
  | o :: os =>
    if o.id = id then { o with state := mergeState o.state st } :: os
    else o :: applyObject os id st

/-- Functional update of the participants map,
`participantsRef.current[id] = p`. -/
def setPart (ps : String → Option Participant) (id : String)
    (p : Participant) : String → Option Participant :=
  fun j => if j = id then some p else ps j

/-- Deletion from a string-keyed map (`delete participantsRef.current[id]`,
`displayPosRef.current.delete(id)`). -/
def delKey {α : Type} (ps : String → Option α) (id : String) :
    String → Option α :=
  fun j => if j = id then none else ps j

/-- The tagged wire messages of `BroadcastMessage` (`src/unnamed/part_002`)
restricted to the payload fields the reconciliation code reads. -/
inductive Msg
  | join (p : Participant)
  | leave (id : String)
  | state (p : Participant)
  | move (id : String) (x y : ℚ) (dir : Dir)
  | avatar (id : String) (profile : Profile) (cam mic : Bool)
  | voice (id : String) (level : ℚ) (mic : Bool)
  | object (id : String) (st : StateMap)
  | chat (id name text : String) (ts : ℕ)

/-- The mutable room state touched by reconciliation and the tick:
`participantsRef`, `displayPosRef`, `objectsRef`, and the local
authoritative position `posRef` owned by the simulation. -/
structure RoomState where
  participants : String → Option Participant
  displayPos : String → Option (ℚ × ℚ)
  objects : List WorldObject
  pos : ℚ × ℚ

/-- `Math.round((WORLD_W * TILE) / 2)` — the default x used when an `avatar`
message creates an unknown participant. -/
def worldCenterX : ℚ := ((round (WORLD_W * TILE / 2) : ℤ) : ℚ)

/-- `Math.round((WORLD_H * TILE) / 2)` — the default y for the same case. -/
def worldCenterY : ℚ := ((round (WORLD_H * TILE / 2) : ℤ) : ℚ)

/-- The store mutation performed by `onMsg` (`src/unnamed/part_000`) for each
inbound message, at wall-clock time `now` (`Date.now()`).  The handshake
reply posted by the `join` branch and the chat log append are transport
output, not store mutation, and the `chat` branch leaves the store alone. -/
def onMsg (s : RoomState) (now : ℕ) : Msg → RoomState
  | Msg.join p =>
    let p2 := { p with lastSeen := now }
    { s with participants := setPart s.participants p.id p2 }
  | Msg.state p =>
    let p2 := { p with lastSeen := now }
    { s with participants := setPart s.participants p.id p2 }
  | Msg.move id x y dir =>
    match s.participants id with
    | none => s
    | some ex =>
      if |ex.x - x| > 0.5 ∨ |ex.y - y| > 0.5 then
        let p2 := { ex with x := x, y := y, dir := dir, lastSeen := now }
        { s with participants := setPart s.participants id p2 }
      else s
  | Msg.avatar id prof cam mic =>
    match s.participants id with
    | some ex =>
      let p2 := { ex with profile := prof, camEnabled := cam,
                          micEnabled := mic, lastSeen := now }
      { s with participants := setPart s.participants id p2 }
    | none =>
      let p2 : Participant :=
        { id := id, profile := prof, x := worldCenterX, y := worldCenterY,
          dir := Dir.down, camEnabled := cam, micEnabled := mic,
          speakingLevel := 0, lastSeen := now }
      { s with participants := setPart s.participants id p2 }
  | Msg.voice id level mic =>
    match s.participants id with
    | none => s
    | some ex =>
      let p2 := { ex with micEnabled := mic, speakingLevel := clamp level 0 1,
                          lastSeen := now }
      { s with participants := setPart s.participants id p2 }
  | Msg.object id st => { s with objects := applyObject s.objects id st }
  | Msg.leave id =>
    { s with participants := delKey s.participants id,
             displayPos := delKey s.displayPos id }
  | Msg.chat _ _ _ _ => s

/-- The "Update my participant" block of `step`: if the local entry exists,
its position is overwritten from `posRef`, its direction from the current
velocity, `lastSeen` from the clock, and `micEnabled` from the React flag. -/
def updateMyEntry (s : RoomState) (myId : String) (vx vy : ℚ) (now : ℕ)
    (micEnabled : Bool) : RoomState :=
  match s.participants myId with
  | none => s
  | some my =>
    let p2 := { my with x := s.pos.1, y := s.pos.2,
                        dir := getDirFromVel vx vy, lastSeen := now,
                        micEnabled := micEnabled }
    { s with participants := setPart s.participants myId p2 }

/-! ### Broadcast scheduler: move throttle (`step`, "Throttle movement sends") -/

/-- One tick of the move throttle: `if (now - lastSend > SEND_RATE_MS) {
lastSend = now; post(move) }`.  Returns the new `lastSend` and whether a
`move` message was posted. -/
def schedStep (lastSend now : ℚ) : ℚ × Bool :=
  if now - lastSend > SEND_RATE_MS then (now, true) else (lastSend, false)

/-- The times at which the move throttle posts, over a sequence of tick
times, threading `lastSend` exactly as `step` does. -/
def schedEmissions : ℚ → List ℚ → List ℚ
  | _, [] => []
  | lastSend, t :: ts =>
    if t - lastSend > SEND_RATE_MS then t :: schedEmissions t ts
    else schedEmissions lastSend ts

/-- The value of `lastSend` after running the move throttle over a sequence
of tick times. -/
def schedFinal : ℚ → List ℚ → ℚ
  | lastSend, [] => lastSend
  | lastSend, t :: ts =>
    if t - lastSend > SEND_RATE_MS then schedFinal t ts
    else schedFinal lastSend ts

/-! ### Broadcast scheduler: voice throttle (`step`, "Throttle voice level sends") -/

/-- The voice-throttle state local to the main-loop closure:
`lastVoice` and `prevVoiceLevel`. -/
structure VoiceSched where
  lastVoice : ℚ
  prevVoiceLevel : ℚ
deriving DecidableEq, Repr

/-- The slice of `step` relevant to voice emission, in source order: the
"Update my participant" block first assigns `my.micEnabled = micEnabled`
(when the local entry exists), and only then does the throttle run
`if (now - lastVoice > VOICE_RATE_MS) { lastVoice = now;
lvl = clamp(voiceLevel*2.2, 0, 1);
if (|lvl - prevVoiceLevel| > 0.03 or !micEnabled !== !my?.micEnabled) send }`.
`myMicBefore` is the local entry's `micEnabled` field at tick start
(`none` when the local entry is absent).  Returns the new throttle state
and the posted `voice` payload, if any. -/
def stepVoiceSlice (now voiceLevel : ℚ) (micEnabled : Bool)
    (myMicBefore : Option Bool) (vs : VoiceSched) :
    VoiceSched × Option (ℚ × Bool) :=
  let myMic : Option Bool :=
    match myMicBefore with
    | some _ => some micEnabled
    | none => none
  if now - vs.lastVoice > VOICE_RATE_MS then
    let lvl := clamp (voiceLevel * 2.2) 0 1
    if |lvl - vs.prevVoiceLevel| > 0.03 ∨ ((!micEnabled) ≠ !(myMic.getD false)) then
      ({ lastVoice := now, prevVoiceLevel := lvl }, some (lvl, micEnabled))
    else ({ vs with lastVoice := now }, none)
  else (vs, none)

/-! ### Velocity smoothing and remote display smoothing (real-valued) -/

/-- `smoothApproach(current, target, gain, dt) =
current + (target - current) * (1 - Math.exp(-gain * dt))`. -/
noncomputable def smoothApproach (current target gain dt : ℝ) : ℝ :=
  current + (target - current) * (1 - Real.exp (-gain * dt))

/-- One axis of the velocity update in `step`:
`smoothApproach(v, desired, desired === 0 ? DECEL : ACCEL, dt)`. -/
noncomputable def stepVelAxis (v desired dt : ℝ) : ℝ :=
  smoothApproach v desired (if desired = 0 then (DECEL : ℝ) else (ACCEL : ℝ)) dt

/-- `lerp` over the reals, used by the remote display smoothing. -/
noncomputable def lerpR (a b t : ℝ) : ℝ := a + (b - a) * t

/-- The per-tick interpolation weight of the remote display smoothing:
`1 - Math.pow(1 - LERP_REMOTE / 60, dt * 60)`. -/
noncomputable def remoteT (dt : ℝ) : ℝ :=
  1 - (1 - (LERP_REMOTE : ℝ) / 60) ^ (dt * 60)

/-- One tick of remote display smoothing on one coordinate:
`disp = lerp(disp, auth, 1 - Math.pow(1 - LERP_REMOTE / 60, dt * 60))`. -/
noncomputable def remoteDispStep (disp auth dt : ℝ) : ℝ :=
  lerpR disp auth (remoteT dt)

/-- `n` ticks of remote display smoothing with a fixed authoritative value
and a fixed elapsed time per tick (no further messages arriving). -/
noncomputable def remoteDispIter (disp auth dt : ℝ) : ℕ → ℝ
  | 0 => disp
  | n + 1 => remoteDispStep (remoteDispIter disp auth dt n) auth dt

/-- The body of the "Remote display smoothing" loop in `step` for one entry:
the local participant's display position is set to its authoritative
position verbatim; every other participant's display position is advanced
by `remoteDispStep` on each coordinate. -/
noncomputable def displayStep (isLocal : Bool) (auth disp : ℝ × ℝ) (dt : ℝ) :
    ℝ × ℝ :=
  if isLocal then auth
  else (remoteDispStep disp.1 auth.1 dt, remoteDispStep disp.2 auth.2 dt)

/-! ### Transport dispatch (`src/unnamed/part_002`) -/

/-- A subscribed handler: given a message, it reads and mutates the ambient
world `W` (the page state its closure captures) or throws. -/
def Handler (W : Type) : Type := Msg → W → Except String W

/-- The dispatch loop shared by all three transports:
`for (const fn of Array.from(handlers)) { try { fn(data) } catch {} }` —
the list is the snapshot of the handler set taken before iterating, and a
throwing handler leaves the world as it was and iteration continues. -/
def deliverAll {W : Type} (hs : List (Handler W)) (m : Msg) (w : W) : W :=
  hs.foldl (fun acc h => match h m acc with
    | Except.ok w2 => w2
    | Except.error _ => acc) w

/-- Delivery in `supabaseChannel`: the `broadcast` callback runs the guarded
loop over a snapshot of `handlers`. -/
def supabaseDeliver {W : Type} (hs : List (Handler W)) (m : Msg) (w : W) : W :=
  deliverAll hs m w

/-- Delivery in `broadcastChannel.onmessage`: look up the handler set for the
key (`if (!set) return`), then run the guarded loop over its snapshot. -/
def broadcastDeliver {W : Type} (set? : Option (List (Handler W))) (m : Msg)
    (w : W) : W :=
  match set? with
  | none => w
  | some hs => deliverAll hs m w

/-- Delivery in `localStorageChannel.onStorage`: ignore events whose key does
not carry the room prefix or whose new value is absent or unparseable;
otherwise run the guarded loop over a snapshot of `handlers`.  `newValue`
is the parse result of `e.newValue` (`none` for absent or malformed). -/
def localStorageDeliver {W : Type} (hs : List (Handler W)) (key pfx : String)
    (newValue : Option Msg) (w : W) : W :=
  if key.startsWith pfx then
    match newValue with
    | some m => deliverAll hs m w
    | none => w
  else w
/-! ## Claims -/

/-- Claim C1, counterexample: at a tick where velocity is exactly `(0, 0)`
and the previous facing is `left`, the `my.dir = getDirFromVel(vel)`
assignment in `step` flips the facing to the default `down` instead of
retaining `left`. -/
theorem C1_counterexample :
    stepDir Dir.left 0 0 = Dir.down ∧ Dir.down ≠ Dir.left := by
  constructor
  · decide
  · decide

/-- Claim C1, amended: `getDirFromVel` maps velocity `(3, -1)` to `right` and
`(0, 5)` to `down`; on every tick with velocity `(0, 0)` — not only at
initialization — the facing is set to the default `down`, whatever its
previous value was. -/
theorem C1_direction_quantization :
    getDirFromVel 3 (-1) = Dir.right ∧ getDirFromVel 0 5 = Dir.down ∧
      ∀ prev : Dir, stepDir prev 0 0 = Dir.down := by
  refine ⟨by decide, by decide, ?_⟩
  intro prev
  show getDirFromVel 0 0 = Dir.down
  decide

/-- Claim C2, counterexample: the time constant of the exponential approach
with gain `g` is `1/g`; with `ACCEL = 8` and `DECEL = 10`, the accelerating
time constant `1/ACCEL` is strictly greater than — not lower than — the
decelerating one `1/DECEL`. -/
theorem C2_counterexample :
    ¬ ((1 : ℚ) / ACCEL < 1 / DECEL) ∧ (1 : ℚ) / DECEL < 1 / ACCEL := by
  constructor
  · norm_num [ACCEL, DECEL]
  · norm_num [ACCEL, DECEL]

/-- Claim C2, amended: per axis the velocity update is an exponential
approach, `smoothApproach v target g dt - target = (v - target)·e^(-g·dt)`,
with gain `DECEL` when the desired component is zero and gain `ACCEL`
otherwise; but the decelerating time constant `1/DECEL` is strictly lower
than the accelerating one `1/ACCEL`, so stops converge faster than starts
(for `dt > 0` the residual factor `e^(-DECEL·dt)` is strictly below
`e^(-ACCEL·dt)`). -/
theorem C2_velocity_smoothing :
    (∀ v target gain dt : ℝ,
        smoothApproach v target gain dt - target
          = (v - target) * Real.exp (-gain * dt))
    ∧ (∀ v dt : ℝ, stepVelAxis v 0 dt = smoothApproach v 0 (DECEL : ℝ) dt)
    ∧ (∀ v d dt : ℝ, d ≠ 0 →
        stepVelAxis v d dt = smoothApproach v d (ACCEL : ℝ) dt)
    ∧ ((1 : ℚ) / DECEL < 1 / ACCEL)
    ∧ (∀ dt : ℝ, 0 < dt →
        Real.exp (-(DECEL : ℝ) * dt) < Real.exp (-(ACCEL : ℝ) * dt)) := by
  have hA : (ACCEL : ℝ) = 8 := by norm_num [ACCEL]
  have hD : (DECEL : ℝ) = 10 := by norm_num [DECEL]
  refine ⟨?_, ?_, ?_, ?_, ?_⟩
  · intro v target gain dt
    unfold smoothApproach
    ring
  · intro v dt
    unfold stepVelAxis
    rw [if_pos rfl]
  · intro v d dt hd
    unfold stepVelAxis
    rw [if_neg hd]
  · norm_num [ACCEL, DECEL]
  · intro dt hdt
    rw [Real.exp_lt_exp, hA, hD]
    nlinarith

/-- Witness for `C2_velocity_smoothing` at `d = 180`, `dt = 1` . -/
theorem C2_velocity_smoothing_witness :
    ((180 : ℝ) ≠ 0
      ∧ stepVelAxis 0 180 1 = smoothApproach 0 180 (ACCEL : ℝ) 1)
    ∧ ((0 : ℝ) < 1
      ∧ Real.exp (-(DECEL : ℝ) * 1) < Real.exp (-(ACCEL : ℝ) * 1)) :=
  ⟨⟨by norm_num, C2_velocity_smoothing.2.2.1 0 180 1 (by norm_num)⟩,
   ⟨by norm_num, C2_velocity_smoothing.2.2.2.2 1 (by norm_num)⟩⟩
/-- The mic-flip disjunct of the voice throttle is vacuous whenever the local
entry exists: `my.micEnabled` has already been overwritten with the current
flag earlier in the same tick, so emission depends only on the level delta. -/
theorem stepVoiceSlice_flip_vacuous (now voiceLevel : ℚ) (micEnabled b : Bool)
    (vs : VoiceSched) :
    (stepVoiceSlice now voiceLevel micEnabled (some b) vs).2
      = (stepVoiceSlice now voiceLevel micEnabled (some true) vs).2 := by
  unfold stepVoiceSlice
  simp

/-- Claim C3, evaluation at the failing input: a tick at `now = 200` with
`lastVoice = 0` (the 140 ms interval has elapsed), normalized level `0`
equal to the level at the last send, and the mic flag now `false` although
the local entry still held `true` from the last send at tick start.  The
spec says this mic flip alone must produce a `voice` message at this tick;
the code posts nothing, because the `my.micEnabled = micEnabled` assignment
earlier in the same `step` makes `!micEnabled !== !my?.micEnabled` always
false. -/
theorem C3_voice_flip_suppressed :
    (stepVoiceSlice 200 0 false (some true) ⟨0, 0⟩).2 = none
      ∧ (200 : ℚ) - 0 > VOICE_RATE_MS := by
  constructor
  · norm_num [stepVoiceSlice, clamp, VOICE_RATE_MS]
  · norm_num [VOICE_RATE_MS]

/-- Shallow merge is idempotent: merging the same partial state twice gives
the same map as merging it once. -/
theorem mergeState_idem (base upd : StateMap) :
    mergeState (mergeState base upd) upd = mergeState base upd := by
  funext k
  unfold mergeState
  cases upd k <;> rfl

/-- Shallow merges of partial states with disjoint key sets commute. -/
theorem mergeState_comm_disjoint (base st1 st2 : StateMap)
    (h : ∀ k, st1 k = none ∨ st2 k = none) :
    mergeState (mergeState base st1) st2
      = mergeState (mergeState base st2) st1 := by
  funext k
  unfold mergeState
  rcases h k with h1 | h1
  · rw [h1]
  · rw [h1]

/-- Applying the same `object` payload to the object list twice equals
applying it once. -/
theorem applyObject_idem (objs : List WorldObject) (id : String)
    (st : StateMap) :
    applyObject (applyObject objs id st) id st = applyObject objs id st := by
  induction objs with
  | nil => rfl
  | cons o os ih =>
    by_cases h : o.id = id
    · simp [applyObject, h, mergeState_idem]
    · simp [applyObject, h, ih]

/-- Two `object` payloads for the same object with disjoint key sets can be
applied in either order. -/
theorem applyObject_comm_disjoint (objs : List WorldObject) (id : String)
    (st1 st2 : StateMap) (h : ∀ k, st1 k = none ∨ st2 k = none) :
    applyObject (applyObject objs id st1) id st2
      = applyObject (applyObject objs id st2) id st1 := by
  induction objs with
  | nil => rfl
  | cons o os ih =>
    by_cases hid : o.id = id
    · simp [applyObject, hid, mergeState_comm_disjoint _ _ _ h]
    · simp [applyObject, hid, ih]

/-- Claim C9: reconciling the same `object` message twice yields the same
store as reconciling it once, and applying two `object` payloads with
disjoint key sets commutes. -/
theorem C9_object_merge :
    (∀ (s : RoomState) (now now2 : ℕ) (id : String) (st : StateMap),
        onMsg (onMsg s now (Msg.object id st)) now2 (Msg.object id st)
          = onMsg s now (Msg.object id st))
    ∧ (∀ (objs : List WorldObject) (id : String) (st1 st2 : StateMap),
        (∀ k, st1 k = none ∨ st2 k = none) →
          applyObject (applyObject objs id st1) id st2
            = applyObject (applyObject objs id st2) id st1) := by
  constructor
  · intro s now now2 id st
    simp [onMsg, applyObject_idem]
  · intro objs id st1 st2 h
    exact applyObject_comm_disjoint objs id st1 st2 h

/-- The `{ on: true }` payload posted when the lamp is toggled on. -/
def stOn : StateMap := fun k => if k = "on" then some true else none

/-- The `{ highlight: false }` payload posted when the board is un-highlighted. -/
def stHl : StateMap := fun k => if k = "highlight" then some false else none

/-- The lamp object from `objectsRef` (`lamp1`, at tile (11, 2)). -/
def lampObj : WorldObject :=
  { id := "lamp1", kind := "lamp", x := 11 * TILE, y := 2 * TILE, w := TILE,
    h := 2 * TILE, interactive := true, state := stOn }

/-- Witness for `C9_object_merge` on the lamp with the disjoint payloads
`{ on: true }` and `{ highlight: false }`. -/
theorem C9_object_merge_witness :
    (∀ k, stOn k = none ∨ stHl k = none)
      ∧ applyObject (applyObject [lampObj] "lamp1" stOn) "lamp1" stHl
          = applyObject (applyObject [lampObj] "lamp1" stHl) "lamp1" stOn := by
  have hdisj : ∀ k, stOn k = none ∨ stHl k = none := by
    intro k
    by_cases h : k = "on"
    · right
      subst h
      rfl
    · left
      simp [stOn, h]
  exact ⟨hdisj, C9_object_merge.2 [lampObj] "lamp1" stOn stHl hdisj⟩

/-- Splitting the guarded dispatch loop over list concatenation. -/
theorem deliverAll_append {W : Type} (hs1 hs2 : List (Handler W)) (m : Msg)
    (w : W) :
    deliverAll (hs1 ++ hs2) m w = deliverAll hs2 m (deliverAll hs1 m w) := by
  unfold deliverAll
  exact List.foldl_append _ _ _ _

/-- A handler that throws on `m` is a no-op inside the guarded loop. -/
theorem deliverAll_error_skip {W : Type} (bad : Handler W)
    (hs : List (Handler W)) (m : Msg) (w : W)
    (hbad : ∀ w2, ∃ e, bad m w2 = Except.error e) :
    deliverAll (bad :: hs) m w = deliverAll hs m w := by
  unfold deliverAll
  rw [List.foldl_cons]
  obtain ⟨e, he⟩ := hbad w
  rw [he]

/-- Claim C10: in all three transports the dispatch loop runs each handler of
the snapshot inside `try { } catch { }`, so a handler that always throws on
a message changes nothing about the delivery of that message to the other
subscribed handlers. -/
theorem C10_handler_isolation :
    (∀ (W : Type) (hs1 hs2 : List (Handler W)) (bad : Handler W) (m : Msg)
        (w : W), (∀ w2, ∃ e, bad m w2 = Except.error e) →
          supabaseDeliver (hs1 ++ bad :: hs2) m w
            = supabaseDeliver (hs1 ++ hs2) m w)
    ∧ (∀ (W : Type) (hs1 hs2 : List (Handler W)) (bad : Handler W) (m : Msg)
        (w : W), (∀ w2, ∃ e, bad m w2 = Except.error e) →
          broadcastDeliver (some (hs1 ++ bad :: hs2)) m w
            = broadcastDeliver (some (hs1 ++ hs2)) m w)
    ∧ (∀ (W : Type) (hs1 hs2 : List (Handler W)) (bad : Handler W) (m : Msg)
        (w : W) (key pfx : String),
          (∀ w2, ∃ e, bad m w2 = Except.error e) →
            localStorageDeliver (hs1 ++ bad :: hs2) key pfx (some m) w
              = localStorageDeliver (hs1 ++ hs2) key pfx (some m) w) := by
  have core : ∀ (W : Type) (hs1 hs2 : List (Handler W)) (bad : Handler W)
      (m : Msg) (w : W), (∀ w2, ∃ e, bad m w2 = Except.error e) →
        deliverAll (hs1 ++ bad :: hs2) m w = deliverAll (hs1 ++ hs2) m w := by
    intro W hs1 hs2 bad m w hbad
    rw [deliverAll_append, deliverAll_append]
    exact deliverAll_error_skip bad hs2 m _ hbad
  refine ⟨?_, ?_, ?_⟩
  · intro W hs1 hs2 bad m w hbad
    exact core W hs1 hs2 bad m w hbad
  · intro W hs1 hs2 bad m w hbad
    unfold broadcastDeliver
    exact core W hs1 hs2 bad m w hbad
  · intro W hs1 hs2 bad m w key pfx hbad
    unfold localStorageDeliver
    by_cases hk : key.startsWith pfx
    · rw [if_pos hk, if_pos hk]
      exact core W hs1 hs2 bad m w hbad
    · rw [if_neg hk, if_neg hk]

/-- A handler that increments a counter world. -/
def goodH : Handler ℕ := fun _ n => Except.ok (n + 1)

/-- A handler that always throws. -/
def badH : Handler ℕ := fun _ _ => Except.error "boom"

/-- Witness for `C10_handler_isolation`: with handlers `[good, bad, good]`
on a counter world, the throwing middle handler does not keep the message
from the other two on any transport. -/
theorem C10_handler_isolation_witness :
    (∀ w2, ∃ e, badH (Msg.leave "x") w2 = Except.error e)
      ∧ supabaseDeliver [goodH, badH, goodH] (Msg.leave "x") 0
          = supabaseDeliver [goodH, goodH] (Msg.leave "x") 0
      ∧ broadcastDeliver (some [goodH, badH, goodH]) (Msg.leave "x") 0
          = broadcastDeliver (some [goodH, goodH]) (Msg.leave "x") 0
      ∧ localStorageDeliver [goodH, badH, goodH] "vm_room_demo_ls_1"
            "vm_room_demo_ls_" (some (Msg.leave "x")) 0
          = localStorageDeliver [goodH, goodH] "vm_room_demo_ls_1"
              "vm_room_demo_ls_" (some (Msg.leave "x")) 0 := by
  have hbad : ∀ w2, ∃ e, badH (Msg.leave "x") w2 = Except.error e := by
    intro w2
    exact ⟨"boom", rfl⟩
  refine ⟨hbad, ?_, ?_, ?_⟩
  · exact C10_handler_isolation.1 ℕ [goodH] [goodH] badH (Msg.leave "x") 0 hbad
  · exact C10_handler_isolation.2.1 ℕ [goodH] [goodH] badH (Msg.leave "x") 0 hbad
  · exact C10_handler_isolation.2.2 ℕ [goodH] [goodH] badH (Msg.leave "x") 0
      "vm_room_demo_ls_1" "vm_room_demo_ls_" hbad
/-- A default profile (the shape `getDefaultProfile` returns). -/
def prof0 : Profile :=
  { name := "Convidado", color := "#7c3aed", accessory := some "", bubble := none }

/-- The local participant of the sample store, at (100, 100). -/
def pLocal : Participant :=
  { id := "me", profile := prof0, x := 100, y := 100, dir := Dir.down,
    camEnabled := false, micEnabled := false, speakingLevel := 0, lastSeen := 0 }

/-- A sample store whose only entry is the local participant `"me"`, with the
authoritative simulated position `posRef = (100, 100)`. -/
def s0 : RoomState :=
  { participants := fun j => if j = "me" then some pLocal else none,
    displayPos := fun _ => none, objects := [lampObj], pos := (100, 100) }

/-- A stale self-snapshot echoed by a peer: same id `"me"`, position (200, 100). -/
def pEcho : Participant :=
  { id := "me", profile := prof0, x := 200, y := 100, dir := Dir.left,
    camEnabled := false, micEnabled := false, speakingLevel := 0, lastSeen := 3 }

/-- Claim C4, counterexample: reconciling an inbound `state` message whose
payload id equals the local participant's id overwrites the local entry's
position — the store entry for `"me"` moves from x = 100 to x = 200. -/
theorem C4_counterexample :
    (s0.participants "me").map Participant.x = some 100
      ∧ ((onMsg s0 5 (Msg.state pEcho)).participants "me").map Participant.x
          = some 200 := by
  constructor
  · rfl
  · rfl

/-- Claim C4, amended: inbound `join`/`state` (and far-enough `move`)
messages carrying the local id overwrite the local store entry like any
other entry; what reconciliation never touches is the local simulation's
authoritative position `posRef`, and the next tick's "Update my
participant" block rewrites the local entry's position from `posRef`. -/
theorem C4_local_authority :
    (∀ (s : RoomState) (now : ℕ) (m : Msg), (onMsg s now m).pos = s.pos)
    ∧ (∀ (s : RoomState) (myId : String) (vx vy : ℚ) (now : ℕ) (mic : Bool)
        (my : Participant), s.participants myId = some my →
          ((updateMyEntry s myId vx vy now mic).participants myId).map
              (fun p => (p.x, p.y)) = some s.pos) := by
  constructor
  · intro s now m
    cases m <;> unfold onMsg <;> try rfl
    all_goals repeat' split
    all_goals rfl
  · intro s myId vx vy now mic my h
    unfold updateMyEntry
    rw [h]
    simp [setPart]

/-- Witness for `C4_local_authority` on the sample store `s0`. -/
theorem C4_local_authority_witness :
    s0.participants "me" = some pLocal
      ∧ ((updateMyEntry s0 "me" 3 (-1) 9 true).participants "me").map
          (fun p => (p.x, p.y)) = some s0.pos :=
  ⟨rfl, C4_local_authority.2 s0 "me" 3 (-1) 9 true pLocal rfl⟩

/-- Claim C6: `move`/`voice` messages with an unknown id leave the store
unchanged; an `avatar` message with an unknown id creates an entry at the
world center; and every reconciliation that writes an entry — `join`,
`state`, `avatar` (both branches), an epsilon-passing `move`, and a `voice`
for a known id — stamps that entry's `lastSeen` with the current time. -/
theorem C6_unknown_id_and_lastSeen :
    (∀ (s : RoomState) (now : ℕ) (id : String) (x y : ℚ) (d : Dir),
        s.participants id = none → onMsg s now (Msg.move id x y d) = s)
    ∧ (∀ (s : RoomState) (now : ℕ) (id : String) (lvl : ℚ) (mic : Bool),
        s.participants id = none → onMsg s now (Msg.voice id lvl mic) = s)
    ∧ (∀ (s : RoomState) (now : ℕ) (id : String) (prof : Profile)
        (cam mic : Bool), s.participants id = none →
          ((onMsg s now (Msg.avatar id prof cam mic)).participants id).map
              (fun p => (p.x, p.y)) = some (worldCenterX, worldCenterY))
    ∧ (∀ (s : RoomState) (now : ℕ) (p : Participant),
        ((onMsg s now (Msg.join p)).participants p.id).map Participant.lastSeen
          = some now)
    ∧ (∀ (s : RoomState) (now : ℕ) (p : Participant),
        ((onMsg s now (Msg.state p)).participants p.id).map Participant.lastSeen
          = some now)
    ∧ (∀ (s : RoomState) (now : ℕ) (id : String) (prof : Profile)
        (cam mic : Bool),
        ((onMsg s now (Msg.avatar id prof cam mic)).participants id).map
            Participant.lastSeen = some now)
    ∧ (∀ (s : RoomState) (now : ℕ) (id : String) (x y : ℚ) (d : Dir)
        (ex : Participant), s.participants id = some ex →
          (|ex.x - x| > 0.5 ∨ |ex.y - y| > 0.5) →
          ((onMsg s now (Msg.move id x y d)).participants id).map
              Participant.lastSeen = some now)
    ∧ (∀ (s : RoomState) (now : ℕ) (id : String) (lvl : ℚ) (mic : Bool)
        (ex : Participant), s.participants id = some ex →
          ((onMsg s now (Msg.voice id lvl mic)).participants id).map
              Participant.lastSeen = some now) := by
  refine ⟨?_, ?_, ?_, ?_, ?_, ?_, ?_, ?_⟩
  · intro s now id x y d h
    simp [onMsg, h]
  · intro s now id lvl mic h
    simp [onMsg, h]
  · intro s now id prof cam mic h
    simp [onMsg, h, setPart]
  · intro s now p
    simp [onMsg, setPart]
  · intro s now p
    simp [onMsg, setPart]
  · intro s now id prof cam mic
    cases h : s.participants id <;> simp [onMsg, h, setPart]
  · intro s now id x y d ex h hd
    simp [onMsg, h, hd, setPart]
  · intro s now id lvl mic ex h
    simp [onMsg, h, setPart]

/-- Witness for `C6_unknown_id_and_lastSeen` on the sample store `s0`:
`"ghost"` is unknown, `"me"` is known and moves by 100 > 0.5. -/
theorem C6_unknown_id_and_lastSeen_witness :
    (s0.participants "ghost" = none
      ∧ onMsg s0 7 (Msg.move "ghost" 1 2 Dir.up) = s0)
    ∧ (s0.participants "ghost" = none
      ∧ onMsg s0 7 (Msg.voice "ghost" 1 true) = s0)
    ∧ (s0.participants "ghost" = none
      ∧ ((onMsg s0 7 (Msg.avatar "ghost" prof0 false true)).participants
            "ghost").map (fun p => (p.x, p.y))
          = some (worldCenterX, worldCenterY))
    ∧ ((onMsg s0 7 (Msg.join pEcho)).participants "me").map
        Participant.lastSeen = some 7
    ∧ (s0.participants "me" = some pLocal
      ∧ (|pLocal.x - 200| > 0.5 ∨ |pLocal.y - 100| > 0.5)
      ∧ ((onMsg s0 7 (Msg.move "me" 200 100 Dir.right)).participants "me").map
          Participant.lastSeen = some 7)
    ∧ ((onMsg s0 7 (Msg.voice "me" 1 true)).participants "me").map
        Participant.lastSeen = some 7 := by
  have hg : s0.participants "ghost" = none := rfl
  have hme : s0.participants "me" = some pLocal := rfl
  have hd : |pLocal.x - (200 : ℚ)| > 0.5 ∨ |pLocal.y - (100 : ℚ)| > 0.5 := by
    left
    norm_num [pLocal]
  refine ⟨⟨hg, ?_⟩, ⟨hg, ?_⟩, ⟨hg, ?_⟩, ?_, ⟨hme, hd, ?_⟩, ?_⟩
  · exact C6_unknown_id_and_lastSeen.1 s0 7 "ghost" 1 2 Dir.up hg
  · exact C6_unknown_id_and_lastSeen.2.1 s0 7 "ghost" 1 true hg
  · exact C6_unknown_id_and_lastSeen.2.2.1 s0 7 "ghost" prof0 false true hg
  · exact C6_unknown_id_and_lastSeen.2.2.2.1 s0 7 pEcho
  · exact C6_unknown_id_and_lastSeen.2.2.2.2.2.2.1 s0 7 "me" 200 100 Dir.right
      pLocal hme hd
  · exact C6_unknown_id_and_lastSeen.2.2.2.2.2.2.2 s0 7 "me" 1 true pLocal hme

/-- Claim C7: for a `move` with a known id, if both coordinate deltas are
within 0.5 the store is left entirely unchanged (same entry, same `dir`,
same `lastSeen`); if either delta exceeds 0.5, the entry is replaced by a
copy in which exactly `x`, `y`, `dir`, `lastSeen` are updated, and every
other entry of the map is untouched. -/
theorem C7_move_epsilon_gate :
    ∀ (s : RoomState) (now : ℕ) (id : String) (x y : ℚ) (d : Dir)
      (ex : Participant), s.participants id = some ex →
      ((|ex.x - x| ≤ 0.5 ∧ |ex.y - y| ≤ 0.5) →
          onMsg s now (Msg.move id x y d) = s)
      ∧ ((|ex.x - x| > 0.5 ∨ |ex.y - y| > 0.5) →
          (onMsg s now (Msg.move id x y d)).participants id
              = some { ex with x := x, y := y, dir := d, lastSeen := now }
            ∧ ∀ j, j ≠ id →
                (onMsg s now (Msg.move id x y d)).participants j
                  = s.participants j) := by
  intro s now id x y d ex h
  constructor
  · intro ⟨hx, hy⟩
    have hcond : ¬ (|ex.x - x| > 0.5 ∨ |ex.y - y| > 0.5) := by
      push_neg
      exact ⟨hx, hy⟩
    simp [onMsg, h, hcond]
  · intro hd
    constructor
    · simp [onMsg, h, hd, setPart]
    · intro j hj
      simp [onMsg, h, hd, setPart, hj]

/-- Witness for `C7_move_epsilon_gate` on the sample store: a jitter move to
(100.3, 100.4) is dropped, and a real move to (200, 100) rewrites exactly
`x`, `y`, `dir`, `lastSeen` of `"me"` while leaving the id `"ghost"` alone. -/
theorem C7_move_epsilon_gate_witness :
    (s0.participants "me" = some pLocal
      ∧ (|pLocal.x - (100.3 : ℚ)| ≤ 0.5 ∧ |pLocal.y - (100.4 : ℚ)| ≤ 0.5)
      ∧ onMsg s0 7 (Msg.move "me" 100.3 100.4 Dir.right) = s0)
    ∧ ((|pLocal.x - (200 : ℚ)| > 0.5 ∨ |pLocal.y - (100 : ℚ)| > 0.5)
      ∧ (onMsg s0 7 (Msg.move "me" 200 100 Dir.right)).participants "me"
          = some { pLocal with x := 200, y := 100, dir := Dir.right,
                               lastSeen := 7 }
      ∧ (onMsg s0 7 (Msg.move "me" 200 100 Dir.right)).participants "ghost"
          = s0.participants "ghost") := by
  have hme : s0.participants "me" = some pLocal := rfl
  have hsmall : |pLocal.x - (100.3 : ℚ)| ≤ 0.5 ∧ |pLocal.y - (100.4 : ℚ)| ≤ 0.5 := by
    constructor <;> norm_num [pLocal, abs_le]
  have hbig : |pLocal.x - (200 : ℚ)| > 0.5 ∨ |pLocal.y - (100 : ℚ)| > 0.5 := by
    left
    norm_num [pLocal]
  have hg : ("ghost" : String) ≠ "me" := by decide
  refine ⟨⟨hme, hsmall, ?_⟩, hbig, ?_, ?_⟩
  · exact (C7_move_epsilon_gate s0 7 "me" 100.3 100.4 Dir.right pLocal hme).1
      hsmall
  · exact ((C7_move_epsilon_gate s0 7 "me" 200 100 Dir.right pLocal hme).2
      hbig).1
  · exact ((C7_move_epsilon_gate s0 7 "me" 200 100 Dir.right pLocal hme).2
      hbig).2 "ghost" hg
/-- The per-tick weight is below 1 for every elapsed time (the decayed factor
`0.8 ^ (dt * 60)` is positive). -/
theorem remoteT_lt_one (dt : ℝ) : remoteT dt < 1 := by
  unfold remoteT
  have h : (0 : ℝ) < ((1 : ℝ) - (LERP_REMOTE : ℝ) / 60) ^ (dt * 60) := by
    apply Real.rpow_pos_of_pos
    norm_num [LERP_REMOTE]
  linarith

/-- The per-tick weight is positive for positive elapsed time. -/
theorem remoteT_pos (dt : ℝ) (hdt : 0 < dt) : 0 < remoteT dt := by
  unfold remoteT
  have h : ((1 : ℝ) - (LERP_REMOTE : ℝ) / 60) ^ (dt * 60) < 1 := by
    apply Real.rpow_lt_one
    · norm_num [LERP_REMOTE]
    · norm_num [LERP_REMOTE]
    · nlinarith
  linarith

/-- One smoothing tick scales the displacement from the authoritative value
by `1 - remoteT dt`. -/
theorem remoteDispStep_sub (disp auth dt : ℝ) :
    remoteDispStep disp auth dt - auth = (disp - auth) * (1 - remoteT dt) := by
  unfold remoteDispStep lerpR
  ring

/-- `n` smoothing ticks scale the displacement by `(1 - remoteT dt) ^ n`. -/
theorem remoteDispIter_sub (disp auth dt : ℝ) (n : ℕ) :
    remoteDispIter disp auth dt n - auth
      = (disp - auth) * (1 - remoteT dt) ^ n := by
  induction n with
  | zero => simp [remoteDispIter]
  | succ n ih =>
    show remoteDispStep (remoteDispIter disp auth dt n) auth dt - auth = _
    rw [remoteDispStep_sub, ih]
    ring

/-- Claim C5: with positive elapsed time and a remote display position not
yet at the authoritative value, one tick strictly shrinks the distance to
the authoritative position and stays strictly between the old display
value and the authoritative value (no overshoot); iterating with no
further messages brings the display within any positive epsilon; and the
local participant's display position is the authoritative pair verbatim. -/
theorem C5_remote_interpolation :
    ∀ (disp auth dt : ℝ), 0 < dt → disp ≠ auth →
      (|remoteDispStep disp auth dt - auth| < |disp - auth|)
      ∧ (disp < auth → disp < remoteDispStep disp auth dt
            ∧ remoteDispStep disp auth dt < auth)
      ∧ (auth < disp → auth < remoteDispStep disp auth dt
            ∧ remoteDispStep disp auth dt < disp)
      ∧ (∀ ε : ℝ, 0 < ε → ∃ n, |remoteDispIter disp auth dt n - auth| < ε)
      ∧ (∀ (auth2 disp2 : ℝ × ℝ), displayStep true auth2 disp2 dt = auth2) := by
  intro disp auth dt hdt hne
  have ht0 := remoteT_pos dt hdt
  have ht1 := remoteT_lt_one dt
  have hsub := remoteDispStep_sub disp auth dt
  refine ⟨?_, ?_, ?_, ?_, ?_⟩
  · have habs : |remoteDispStep disp auth dt - auth|
        = |disp - auth| * (1 - remoteT dt) := by
      rw [hsub, abs_mul, abs_of_nonneg (by linarith : (0 : ℝ) ≤ 1 - remoteT dt)]
    have hpos : 0 < |disp - auth| := abs_pos.mpr (sub_ne_zero.mpr hne)
    rw [habs]
    nlinarith
  · intro hlt
    have h1 : 0 < (auth - disp) * remoteT dt := mul_pos (by linarith) ht0
    have h2 : 0 < (auth - disp) * (1 - remoteT dt) :=
      mul_pos (by linarith) (by linarith)
    constructor <;> nlinarith [hsub]
  · intro hlt
    have h1 : 0 < (disp - auth) * remoteT dt := mul_pos (by linarith) ht0
    have h2 : 0 < (disp - auth) * (1 - remoteT dt) :=
      mul_pos (by linarith) (by linarith)
    constructor <;> nlinarith [hsub]
  · intro ε hε
    have hd0 : 0 < |disp - auth| := abs_pos.mpr (sub_ne_zero.mpr hne)
    obtain ⟨n, hn⟩ := exists_pow_lt_of_lt_one (div_pos hε hd0)
      (by linarith : 1 - remoteT dt < 1)
    refine ⟨n, ?_⟩
    rw [remoteDispIter_sub, abs_mul, abs_pow,
      abs_of_nonneg (by linarith : (0 : ℝ) ≤ 1 - remoteT dt)]
    calc |disp - auth| * (1 - remoteT dt) ^ n
        < |disp - auth| * (ε / |disp - auth|) :=
          mul_lt_mul_of_pos_left hn hd0
      _ = ε := by field_simp
  · intro auth2 disp2
    rfl

/-- Witness for `C5_remote_interpolation` with display 0, authoritative 1,
dt = 1 second, epsilon 1/2. -/
theorem C5_remote_interpolation_witness :
    ((0 : ℝ) < 1 ∧ (0 : ℝ) ≠ 1)
      ∧ |remoteDispStep 0 1 1 - 1| < |(0 : ℝ) - 1|
      ∧ ((0 : ℝ) < remoteDispStep 0 1 1 ∧ remoteDispStep 0 1 1 < 1)
      ∧ (∃ n, |remoteDispIter 0 1 1 n - 1| < (1 / 2 : ℝ)) := by
  have h := C5_remote_interpolation 0 1 1 (by norm_num) (by norm_num)
  exact ⟨⟨by norm_num, by norm_num⟩, h.1, h.2.1 (by norm_num),
    h.2.2.2.1 (1 / 2) (by norm_num)⟩

/-- Every emission of the move throttle is more than one send interval after
the `lastSend` value the run started from. -/
theorem schedEmissions_gt (lastSend : ℚ) (ts : List ℚ) :
    ∀ x ∈ schedEmissions lastSend ts, lastSend + SEND_RATE_MS < x := by
  induction ts generalizing lastSend with
  | nil =>
    intro x hx
    simp [schedEmissions] at hx
  | cons t ts ih =>
    intro x hx
    unfold schedEmissions at hx
    by_cases h : t - lastSend > SEND_RATE_MS
    · rw [if_pos h] at hx
      rcases List.mem_cons.mp hx with rfl | hx2
      · linarith
      · have hS : (0 : ℚ) < SEND_RATE_MS := by norm_num [SEND_RATE_MS]
        have := ih t x hx2
        linarith
    · rw [if_neg h] at hx
      exact ih lastSend x hx

/-- Consecutive move emissions are more than one send interval apart. -/
theorem schedEmissions_pairwise (lastSend : ℚ) (ts : List ℚ) :
    (schedEmissions lastSend ts).Pairwise
      (fun u v => u + SEND_RATE_MS < v) := by
  induction ts generalizing lastSend with
  | nil => simp [schedEmissions]
  | cons t ts ih =>
    unfold schedEmissions
    by_cases h : t - lastSend > SEND_RATE_MS
    · rw [if_pos h]
      exact List.Pairwise.cons (fun y hy => schedEmissions_gt t ts y hy) (ih t)
    · rw [if_neg h]
      exact ih lastSend

/-- A list whose consecutive elements are more than one send interval apart
and that fits in a window of length `T` has at most `T/interval + 1`
elements. -/
theorem pairwise_gap_length_bound :
    ∀ (l : List ℚ) (a T : ℚ), 0 ≤ T →
      l.Pairwise (fun u v => u + SEND_RATE_MS < v) →
      (∀ x ∈ l, a ≤ x ∧ x ≤ a + T) →
      (l.length : ℚ) ≤ T / SEND_RATE_MS + 1 := by
  intro l
  induction l with
  | nil =>
    intro a T hT _ _
    have h0 : (0 : ℚ) ≤ T / SEND_RATE_MS :=
      div_nonneg hT (by norm_num [SEND_RATE_MS])
    simp
    linarith
  | cons h t ih =>
    intro a T hT hp hb
    rcases List.pairwise_cons.mp hp with ⟨hhead, htail⟩
    have hhb := hb h (List.mem_cons_self h t)
    by_cases hne : t = []
    · subst hne
      have h0 : (0 : ℚ) ≤ T / SEND_RATE_MS :=
        div_nonneg hT (by norm_num [SEND_RATE_MS])
      simp
      linarith
    · obtain ⟨y, hy⟩ := List.exists_mem_of_ne_nil t hne
      have hy2 := hhead y hy
      have hyb := hb y (List.mem_cons_of_mem h hy)
      have hT2 : (0 : ℚ) ≤ (a + T) - (h + SEND_RATE_MS) := by
        have := hyb.2
        linarith
      have hbounds : ∀ x ∈ t, (h + SEND_RATE_MS) ≤ x
          ∧ x ≤ (h + SEND_RATE_MS) + ((a + T) - (h + SEND_RATE_MS)) := by
        intro x hx
        have hgx := hhead x hx
        have hxb := hb x (List.mem_cons_of_mem h hx)
        constructor
        · linarith
        · linarith [hxb.2]
      have hlen := ih (h + SEND_RATE_MS) ((a + T) - (h + SEND_RATE_MS)) hT2
        htail hbounds
      have hS : SEND_RATE_MS = 60 := rfl
      rw [hS] at hlen ⊢
      have h1 : (a + T) - (h + 60) ≤ T - 60 := by linarith [hhb.1]
      have h2 : ((a + T) - (h + 60)) / 60 ≤ (T - 60) / 60 :=
        (div_le_div_iff_of_pos_right (by norm_num)).mpr h1
      have h3 : (T - 60) / 60 = T / 60 - 1 := by ring
      simp only [List.length_cons]
      push_cast
      linarith

/-- For a nonempty list, `getLast?.getD` does not depend on the default. -/
theorem getLast?_getD_swap (e : ℚ) (es : List ℚ) (d1 d2 : ℚ) :
    (e :: es).getLast?.getD d1 = (e :: es).getLast?.getD d2 := by
  induction es generalizing e with
  | nil => rfl
  | cons f fs ih =>
    rw [List.getLast?_cons_cons]
    exact ih f

/-- Claim C8: over any time window `[a, a + T]` the number of `move`
messages the throttle emits is at most `⌈T / 60⌉ + 1`; a tick emits exactly
when more than `SEND_RATE_MS` have elapsed since `lastSend`; and the
threaded `lastSend` is precisely the time of the most recent emission (the
initial value when none was emitted). -/
theorem C8_move_rate :
    (∀ (ts : List ℚ) (a T : ℚ), 0 ≤ T →
        ((((schedEmissions 0 ts).filter
              (fun x => decide (a ≤ x ∧ x ≤ a + T))).length : ℤ)
          ≤ ⌈T / SEND_RATE_MS⌉ + 1))
    ∧ (∀ lastSend now : ℚ,
        (schedStep lastSend now).2 = true ↔ now - lastSend > SEND_RATE_MS)
    ∧ (∀ (lastSend : ℚ) (ts : List ℚ),
        schedFinal lastSend ts
          = ((schedEmissions lastSend ts).getLast?).getD lastSend) := by
  refine ⟨?_, ?_, ?_⟩
  · intro ts a T hT
    have hpair : ((schedEmissions 0 ts).filter
        (fun x => decide (a ≤ x ∧ x ≤ a + T))).Pairwise
          (fun u v => u + SEND_RATE_MS < v) :=
      (schedEmissions_pairwise 0 ts).sublist (List.filter_sublist _)
    have hbnd : ∀ x ∈ (schedEmissions 0 ts).filter
        (fun x => decide (a ≤ x ∧ x ≤ a + T)), a ≤ x ∧ x ≤ a + T := by
      intro x hx
      exact of_decide_eq_true (List.mem_filter.mp hx).2
    have hq := pairwise_gap_length_bound _ a T hT hpair hbnd
    have hceil : (T / SEND_RATE_MS : ℚ) ≤ ((⌈T / SEND_RATE_MS⌉ : ℤ) : ℚ) :=
      Int.le_ceil _
    have hfin : ((((schedEmissions 0 ts).filter
        (fun x => decide (a ≤ x ∧ x ≤ a + T))).length : ℚ))
          ≤ ((⌈T / SEND_RATE_MS⌉ : ℤ) : ℚ) + 1 := by linarith
    exact_mod_cast hfin
  · intro lastSend now
    unfold schedStep
    split <;> simp_all
  · intro lastSend ts
    induction ts generalizing lastSend with
    | nil => rfl
    | cons t ts ih =>
      unfold schedFinal schedEmissions
      by_cases h : t - lastSend > SEND_RATE_MS
      · rw [if_pos h, if_pos h, ih t]
        cases hes : schedEmissions t ts with
        | nil => rfl
        | cons e es =>
          rw [List.getLast?_cons_cons]
          exact getLast?_getD_swap e es t lastSend
      · rw [if_neg h, if_neg h]
        exact ih lastSend

/-- Witness for `C8_move_rate` on ticks at 70, 100 and 140 ms and the window
`[0, 140]`: two emissions, bound `⌈140/60⌉ + 1 = 4`. -/
theorem C8_move_rate_witness :
    (0 : ℚ) ≤ 140
      ∧ ((((schedEmissions 0 [70, 100, 140]).filter
            (fun x => decide ((0 : ℚ) ≤ x ∧ x ≤ 0 + 140))).length : ℤ)
          ≤ ⌈(140 : ℚ) / SEND_RATE_MS⌉ + 1) :=
  ⟨by norm_num, C8_move_rate.1 [70, 100, 140] 0 140 (by norm_num)⟩

end Visual
